import Mathlib

/-!
Verification development for the TetraEar-BladeRF TETRA decoder.

This file gives a shallow embedding, in Lean 4, of the parts of the Python
source that the specification's claims are about:

* `tetra_protocol.py`: the stateful MAC PDU parser (`parse_mac_pdu` with its
  fragment buffer), the CRC-16-CCITT routine (`_calculate_crc16`), the
  heuristic CRC check (`_check_crc`), and the SDS payload decoder
  (`parse_sds_data` with its helpers).
* `tetra_decoder.py`: the sync search (`find_sync`), the threshold cascade and
  fallback of `decode`, the encryption-status update of `decode_frame`, and the
  candidate-plaintext scoring of `_decrypt_frame`.
* `tetra_decoder_main.py`: `extract_voice_slot_from_symbols`.
* `auto_test_find_record_decode.py`: `_build_codec_frame_from_soft_bits` and
  the soft-bit extraction `_extract_voice_slot_from_symbols`.

Bits are modelled as `Bool` (the Python code works on 0/1 integer arrays),
bytes as `Nat` (each value below 256 in all uses), Python `bytes` values as
`List Nat`, and Python strings as lists of Unicode code points (`List Nat`).
Floating-point ratio comparisons in the source (`x / n > 0.7` and the like)
are modelled by exact cross-multiplied integer comparisons; for the operand
ranges that occur (counts bounded by list lengths) the double-precision
comparison and the exact rational comparison agree.
-/

namespace TetraEar

/-! ## Basic bit and byte helpers -/

/-- Most-significant-bit-first binary value of a bit list, as produced by
Python's `int(''.join(str(b) for b in bits), 2)`. -/
def b2n (bits : List Bool) : Nat :=
  bits.foldl (fun a b => 2 * a + (if b then 1 else 0)) 0

/-- Indexing with Python's behaviour in the parser where the index is always
in range when read (guarded by length checks); out-of-range reads default to
`false`. -/
def bitAt (bits : List Bool) (i : Nat) : Bool :=
  bits.getD i false

/-- Value of one byte from eight bits, MSB first. -/
def byteVal (b0 b1 b2 b3 b4 b5 b6 b7 : Bool) : Nat :=
  b2n [b0, b1, b2, b3, b4, b5, b6, b7]

/-- Python `BitArray(bits).tobytes()`: pack bits into bytes MSB-first, padding the
last incomplete byte with zero bits. -/
def bytesOfBits : List Bool → List Nat
  | [] => []
  | b0 :: b1 :: b2 :: b3 :: b4 :: b5 :: b6 :: b7 :: rest =>
      byteVal b0 b1 b2 b3 b4 b5 b6 b7 :: bytesOfBits rest
  | l => [byteVal (l.getD 0 false) (l.getD 1 false) (l.getD 2 false)
            (l.getD 3 false) (l.getD 4 false) (l.getD 5 false)
            (l.getD 6 false) (l.getD 7 false)]

/-- Bits of one byte, MSB first (as in `for i in range(7, -1, -1): (b >> i) & 1`). -/
def bitsOfByte (b : Nat) : List Bool :=
  (List.range 8).map (fun i => (b >>> (7 - i)) &&& 1 = 1)

/-- Bits of a byte string, MSB first per byte. -/
def bitsOfBytes (bs : List Nat) : List Bool :=
  bs.flatMap bitsOfByte

/-- Python `data.rstrip(b'\x00')`: drop trailing zero bytes. -/
def rstripZeros (bs : List Nat) : List Nat :=
  (bs.reverse.dropWhile (· = 0)).reverse

/-- Python `len(set(data))`: number of distinct byte values. -/
def uniqueCount (bs : List Nat) : Nat :=
  bs.dedup.length

/-! ## MAC PDU parser (`tetra_protocol.py`, `TetraProtocolParser.parse_mac_pdu`)

The parser instance state that `parse_mac_pdu` reads and writes is the
fragment buffer and the fragment metadata.  The metadata dict is either empty
(falsy) or `{'address': a, 'encrypted': e}`; we model it as
`Option (Option Nat × Bool)`. -/

/-- MAC PDU types (`PDUType` enum). -/
inductive PDUType where
  | MAC_RESOURCE
  | MAC_FRAG
  | MAC_END
  | MAC_BROADCAST
  | MAC_SUPPL
  | MAC_U_SIGNAL
  | MAC_DATA
  | MAC_U_BLK
deriving DecidableEq, Repr

/-- Model of `PDUType(pdu_type_val)` with the `ValueError` fallback to `MAC_DATA`
(unreachable for 3-bit values, kept for fidelity). -/
def pduTypeOfVal (v : Nat) : PDUType :=
  match v with
  | 0 => .MAC_RESOURCE
  | 1 => .MAC_FRAG
  | 2 => .MAC_END
  | 3 => .MAC_BROADCAST
  | 4 => .MAC_SUPPL
  | 5 => .MAC_U_SIGNAL
  | 6 => .MAC_DATA
  | 7 => .MAC_U_BLK
  | _ => .MAC_DATA

/-- The `MacPDU` dataclass. -/
structure MacPDU where
  pdu_type : PDUType
  encrypted : Bool
  address : Option Nat
  length : Nat
  data : List Nat
  fill_bits : Bool
  reassembled_data : Option (List Nat)
deriving DecidableEq, Repr

/-- Fragmentation state owned by a `TetraProtocolParser` instance. -/
structure ParserState where
  fragment_buffer : List Nat
  fragment_metadata : Option (Option Nat × Bool)
deriving DecidableEq, Repr

/-- The freshly initialised parser state (empty buffer, empty metadata). -/
def initState : ParserState := ⟨[], none⟩

/-- Value of `(bits[0] << 2) | (bits[1] << 1) | bits[2]`. -/
def pduTypeVal (bits : List Bool) : Nat :=
  (if bitAt bits 0 then 4 else 0) + (if bitAt bits 1 then 2 else 0) +
    (if bitAt bits 2 then 1 else 0)

/-- Python truthiness of an `Optional[int]`: `None` and `0` are falsy. -/
def optFalsy : Option Nat → Bool
  | none => true
  | some a => a = 0

/-- MAC-RESOURCE address field: bits [5..29) when at least 29 bits exist. -/
def resAddress (bits : List Bool) : Option Nat :=
  if 29 ≤ bits.length then some (b2n ((bits.drop 5).take 24)) else none

/-- MAC-RESOURCE (and generic) length field: bits [29..35) when at least 35
bits exist, else 0. -/
def resLength (bits : List Bool) : Nat :=
  if 35 ≤ bits.length then b2n ((bits.drop 29).take 6) else 0

/-- MAC-RESOURCE (and generic) payload bytes.  The Python slice is
`bits[35:35+length*8]` when more than 35 bits exist and `bits[35:]` (which is
then empty) otherwise; both coincide with `(bits.drop 35).take (8*length)`. -/
def resData (bits : List Bool) : List Nat :=
  bytesOfBits ((bits.drop 35).take (8 * resLength bits))

/-- MAC-FRAG payload: everything after the fill bit. -/
def fragData (bits : List Bool) : List Nat :=
  bytesOfBits (bits.drop 4)

/-- MAC-END length field: bits [4..10) when at least 10 bits exist, else 0. -/
def endLength (bits : List Bool) : Nat :=
  if 10 ≤ bits.length then b2n ((bits.drop 4).take 6) else 0

/-- MAC-END payload bytes (empty when fewer than 10 bits; the `len > 10`
else-branch slice `bits[10:]` is empty exactly when it is taken). -/
def endData (bits : List Bool) : List Nat :=
  if 10 ≤ bits.length then bytesOfBits ((bits.drop 10).take (8 * endLength bits))
  else []

/-- The MAC-RESOURCE branch: build the PDU, then reset the fragment buffer to
this payload and record `{'address': address, 'encrypted': encrypted}`. -/
def parseResource (bits : List Bool) (_s : ParserState) :
    Option MacPDU × ParserState :=
  (some { pdu_type := .MAC_RESOURCE
          encrypted := bitAt bits 4
          address := resAddress bits
          length := resLength bits
          data := resData bits
          fill_bits := bitAt bits 3
          reassembled_data := none },
   { fragment_buffer := resData bits
     fragment_metadata := some (resAddress bits, bitAt bits 4) })

/-- The MAC-FRAG branch: append the payload to the fragment buffer; inherit
`encrypted`/`address` from the metadata when it is non-empty. -/
def parseFrag (bits : List Bool) (s : ParserState) :
    Option MacPDU × ParserState :=
  let d := fragData bits
  let pduBase : MacPDU :=
    { pdu_type := .MAC_FRAG, encrypted := false, address := none, length := 0
      data := d, fill_bits := bitAt bits 3, reassembled_data := none }
  let pdu :=
    match s.fragment_metadata with
    | some (a, e) => { pduBase with encrypted := e, address := a }
    | none => pduBase
  (some pdu, { s with fragment_buffer := s.fragment_buffer ++ d })

/-- The MAC-END branch: append the payload; if the buffer is then non-empty,
attach it as `reassembled_data`, restore address/encryption from the metadata,
and clear buffer and metadata; otherwise leave the (empty) buffer and the
metadata as they are. -/
def parseEnd (bits : List Bool) (s : ParserState) :
    Option MacPDU × ParserState :=
  let d := endData bits
  let buf := s.fragment_buffer ++ d
  let pdu0 : MacPDU :=
    { pdu_type := .MAC_END, encrypted := false, address := none
      length := endLength bits, data := d, fill_bits := bitAt bits 3
      reassembled_data := none }
  if buf.isEmpty then
    (some pdu0, { fragment_buffer := buf, fragment_metadata := s.fragment_metadata })
  else
    match s.fragment_metadata with
    | none =>
        (some { pdu0 with reassembled_data := some buf },
         { fragment_buffer := [], fragment_metadata := none })
    | some (a, e) =>
        (some { pdu0 with
                  reassembled_data := some buf
                  address := if optFalsy pdu0.address then a else pdu0.address
                  encrypted := if pdu0.encrypted = false then e else pdu0.encrypted },
         { fragment_buffer := [], fragment_metadata := none })

/-- The generic branch (Broadcast, Suppl, USignal, Data, UBlk): same field
layout as MAC-RESOURCE, but the fragment state is not touched. -/
def parseGeneric (bits : List Bool) (s : ParserState) (t : PDUType) :
    Option MacPDU × ParserState :=
  (some { pdu_type := t
          encrypted := bitAt bits 4
          address := resAddress bits
          length := resLength bits
          data := resData bits
          fill_bits := bitAt bits 3
          reassembled_data := none },
   s)

/-- Model of `TetraProtocolParser.parse_mac_pdu`, with the instance state made
explicit: the returned pair is (parsed PDU or `None`, updated state). -/
def parse_mac_pdu (bits : List Bool) (s : ParserState) :
    Option MacPDU × ParserState :=
  if bits.length < 8 then (none, s)
  else
    match pduTypeOfVal (pduTypeVal bits) with
    | .MAC_RESOURCE => parseResource bits s
    | .MAC_FRAG => parseFrag bits s
    | .MAC_END => parseEnd bits s
    | t => parseGeneric bits s t

/-! ## CRC-16-CCITT (`TetraProtocolParser._calculate_crc16`) -/

/-- One iteration of the CRC loop: XOR the data bit into the top of the
register, then one shift step with conditional polynomial XOR, masked to 16
bits (`crc &= 0xFFFF` is `% 65536`). -/
def crcStep (c : Nat) (b : Bool) : Nat :=
  let c1 := c ^^^ (if b then 32768 else 0)
  let c2 := if c1 &&& 32768 ≠ 0 then (c1 <<< 1) ^^^ 0x1021 else c1 <<< 1
  c2 % 65536

/-- The CRC register after processing a bit list, starting from 0xFFFF. -/
def calculate_crc16 (bits : List Bool) : Nat :=
  bits.foldl crcStep 0xFFFF

/-- The 16 CRC bits, MSB first (`[(crc >> i) & 1 for i in range(15, -1, -1)]`). -/
def crcBitsOf (c : Nat) : List Bool :=
  (List.range 16).map (fun i => (c >>> (15 - i)) &&& 1 = 1)

/-! ## Heuristic CRC check (`TetraProtocolParser._check_crc`) -/

/-- Number of positions where two equal-length bit lists differ
(`np.sum(calculated_crc != received_crc)`). -/
def countDiff (a b : List Bool) : Nat :=
  (a.zip b).countP (fun p => ! (p.1 == p.2))

/-- Model of `_check_crc`: fewer than 16 bits fails; a minority-bit ratio above 0.15
passes; otherwise the CRC of the head is compared with the trailing 16 bits,
allowing up to 3 differing positions.  `min/max > 0.15` is modelled as
`min * 20 > 3 * max` (the `max > 0` guard always holds for length ≥ 16, and
the `except` fallback of the Python code is unreachable). -/
def check_crc (bits : List Bool) : Bool :=
  if bits.length < 16 then false
  else
    let ones := bits.countP (· = true)
    let zeros := bits.length - ones
    if (min ones zeros) * 20 > 3 * (max ones zeros) then true
    else
      let payload := bits.take (bits.length - 16)
      let received := bits.drop (bits.length - 16)
      countDiff (crcBitsOf (calculate_crc16 payload)) received ≤ 3

/-! ## Sync search (`TetraDecoder.find_sync`) and the threshold cascade of
`TetraDecoder.decode`

Thresholds are rationals `num/den`; `correlation >= threshold` with
`correlation = matches/22` is `matches * den ≥ num * 22`.  The loop is
modelled with a step counter bounded by the window count (the Python `while`
advances `i` by 1, or by 251 after a match), written with explicit fuel so
that it is structurally recursive; `find_sync` supplies enough fuel for every
reachable iteration. -/

/-- The 22-bit TS1 pattern used by `find_sync`. -/
def TS1 : List Bool :=
  [true, true, false, true, false, false, false, false, true, true, true,
   false, true, false, false, true, true, true, false, true, false, false]

/-- The 22-bit TS2 pattern used by `find_sync`. -/
def TS2 : List Bool :=
  [false, true, true, true, true, false, true, false, false, true, false,
   false, false, false, true, true, false, true, true, true, false, false]

/-- Value of `np.sum(window == pattern)` over the 22-bit window at position `i`. -/
def countMatches (bits pattern : List Bool) (i : Nat) : Nat :=
  ((((bits.drop i).take 22).zip pattern).countP (fun p => p.1 == p.2))

/-- Correlation-at-least-threshold test for one pattern at one position. -/
def syncMatch (bits : List Bool) (pattern : List Bool) (i num den : Nat) : Bool :=
  countMatches bits pattern i * den ≥ num * 22

/-- The scanning loop of `find_sync`: at each `i < numWindows` try TS1 then
TS2; on a match record `i` and skip ahead by 250 (plus the loop's `i += 1`);
otherwise advance by 1. -/
def findSyncLoop (bits : List Bool) (num den numWindows : Nat) :
    Nat → Nat → List Nat
  | 0, _ => []
  | fuel + 1, i =>
      if i < numWindows then
        if syncMatch bits TS1 i num den then
          i :: findSyncLoop bits num den numWindows fuel (i + 251)
        else if syncMatch bits TS2 i num den then
          i :: findSyncLoop bits num den numWindows fuel (i + 251)
        else
          findSyncLoop bits num den numWindows fuel (i + 1)
      else []

/-- Model of `TetraDecoder.find_sync` at threshold `num/den`. -/
def find_sync (bits : List Bool) (num den : Nat) : List Nat :=
  if bits.length < 22 then []
  else findSyncLoop bits num den (bits.length - 21) (bits.length - 21) 0

/-- The threshold cascade of `TetraDecoder.decode`: 0.75, then 0.65, then
0.55, then — when at least one frame length (510 bits) is available — the
fallback `sync_positions = [0]`. -/
def sync_positions (bits : List Bool) : List Nat :=
  let p1 := find_sync bits 3 4
  if p1.isEmpty then
    let p2 := find_sync bits 13 20
    if p2.isEmpty then
      let p3 := find_sync bits 11 20
      if p3.isEmpty then
        if 510 ≤ bits.length then [0] else []
      else p3
    else p2
  else p1

/-- The burst-emission filter of `TetraDecoder.decode`: each sync position is
anchored at `pos - 216`; positions with a negative anchor, or without 255
symbols (`len(bits) / 2` symbols exist) from the anchor symbol, are dropped.
With enough bits, `decode_frame` always returns a frame, so the emitted frame
start positions are exactly this list. -/
def decode_emitted (bits : List Bool) : List Nat :=
  (sync_positions bits).filterMap (fun pos =>
    if 216 ≤ pos ∧ (pos - 216) / 2 + 255 ≤ bits.length / 2 then some (pos - 216)
    else none)

/-! ## Encryption-status update of `TetraDecoder.decode_frame`
(the second, effective definition in `tetra_decoder.py`)

`decode_frame` initialises `encryption_algorithm` from the 2-bit header
encryption mode, then — after MAC PDU parsing — updates the frame's
`encrypted`/`encryption_algorithm` from the PDU flag and a byte-entropy
check.  We model the algorithm label as an enumeration instead of a Python
string. -/

/-- Encryption algorithm labels. -/
inductive EncAlg where
  | TEA1
  | TEA2
  | TEA3
  | TEA4
deriving DecidableEq, Repr

/-- Initial `encryption_algorithm` from the 2-bit header encryption mode
(0 = Clear → `None`, 1 → TEA1, 2 → TEA2, 3 → TEA3). -/
def algOfMode (mode : Nat) : Option EncAlg :=
  match mode with
  | 1 => some .TEA1
  | 2 => some .TEA2
  | 3 => some .TEA3
  | _ => none

/-- The encryption-status update of `decode_frame` (lines 800-846): given the
MAC PDU's `encrypted` flag, its payload, and the current
`encryption_algorithm`, return the frame's final (`encrypted`,
`encryption_algorithm`).  When the flag is set, the (always 0, since `MacPDU`
has no `encryption_mode` attribute) `enc_mode` leads to the default branch
that fills in TEA1 only when no algorithm is set.  When the flag is clear,
payloads of more than 8 bytes with more than 70% unique bytes promote the
frame to encrypted, leaving the algorithm label untouched; otherwise the
frame is marked clear and the label erased. -/
def updateEncStatus (macEncrypted : Bool) (data : List Nat)
    (alg : Option EncAlg) : Bool × Option EncAlg :=
  if macEncrypted then
    (true, if alg = none then some .TEA1 else alg)
  else
    if 0 < data.length then
      if uniqueCount data * 10 > 7 * data.length ∧ 8 < data.length then
        (true, alg)
      else (false, none)
    else (false, none)

/-! ## Candidate-plaintext scoring (`TetraDecoder._decrypt_frame`)

For each key trial the decrypted payload is scored.  The final try-block
parses the plaintext through the protocol parser (mutating the fragment
state) and then evaluates the comparison of `pdu.pdu_type` against
`self.protocol_parser.PDUType.MAC_DATA`;
`TetraProtocolParser` has no `PDUType` attribute, so this raises
`AttributeError`, which the bare `except` swallows — hence only the CRC bonus
of that block is ever added and the intended `+50` is unreachable. -/

/-- The advanced-scoring try block as the code actually behaves: the CRC
bonus is added, the plaintext is parsed (advancing the fragment state), and
the `+50` typed-PDU bonus is never reached. -/
def advancedBonus (p : List Nat) (s : ParserState) : Int × ParserState :=
  let c : Int := if check_crc (bitsOfBytes p) then 100 else 0
  let r := parse_mac_pdu (bitsOfBytes p) s
  (c, r.2)

/-- Modelled from the spec: the advanced-scoring block of §4.6 as the
specification describes it, adding `+50` when the plaintext re-parses as a
typed MAC PDU other than plain Data, on top of the `+100` CRC bonus. -/
def advancedBonusSpec (p : List Nat) (s : ParserState) : Int × ParserState :=
  let c : Int := if check_crc (bitsOfBytes p) then 100 else 0
  let r := parse_mac_pdu (bitsOfBytes p) s
  let b : Int :=
    match r.1 with
    | some pdu => if pdu.pdu_type ≠ .MAC_DATA then 50 else 0
    | none => 0
  (c + b, r.2)

/-- The base score of one decryption trial before the advanced block:
printable bytes, byte diversity, all-zero/all-0xFF penalties, and first-byte
pattern bonuses. -/
def baseScore (p : List Nat) : Int :=
  let printable : Int := (p.countP (fun b => 32 ≤ b ∧ b ≤ 126) : Nat)
  let uniq := uniqueCount p
  printable * 2 +
    (if uniq > p.length / 8 then 30 else 0) +
    (if p = List.replicate p.length 0 then -50 else 0) +
    (if p = List.replicate p.length 255 then -50 else 0) +
    (if 4 ≤ p.length then
       (if p.getD 0 0 ≠ 0 ∧ p.getD 0 0 ≠ 255 then 10 else 0) +
         (if p.getD 0 0 ∈ [1, 2, 3, 4, 5, 8, 10, 12] then 20 else 0)
     else 0) +
    (if uniq > 1 then 10 else 0)

/-- Total score of one decryption trial (code behaviour, without the
unreachable `+50`). -/
def trialScore (p : List Nat) (s : ParserState) : Int × ParserState :=
  let a := advancedBonus p s
  (baseScore p + a.1, a.2)

/-- Modelled from the spec: total trial score including the §4.6 `+50`
typed-PDU bonus. -/
def trialScoreSpec (p : List Nat) (s : ParserState) : Int × ParserState :=
  let a := advancedBonusSpec p s
  (baseScore p + a.1, a.2)

/-! ## Voice slot extraction (`tetra_decoder_main.extract_voice_slot_from_symbols`)

Given the 255 slot symbols (integers 0..3), the two data blocks — symbols
[0..108) and [119..227) — are turned into soft bits (+16384 for a 1 bit,
−16384 for a 0 bit, two bits per symbol MSB first), prefixed with the 0x6B21
header short, zero-padded to 690 shorts and packed as little-endian i16. -/

/-- The two soft bits of one symbol, `+16384` for 1 and `-16384` for 0. -/
def softPair16384 (sym : Nat) : List Int :=
  [if (sym >>> 1) &&& 1 = 1 then 16384 else -16384,
   if sym &&& 1 = 1 then 16384 else -16384]

/-- Soft bits of the first data block (symbols [0..108)) followed by the
second data block (symbols [119..227)); the Python loops break when the slot
runs out, which `take`/`drop` reproduce. -/
def extractSoftBits (slot : List Nat) : List Int :=
  (slot.take 108).flatMap softPair16384 ++
    ((slot.take 227).drop 119).flatMap softPair16384

/-- The 690 shorts of the emitted codec frame: header 0x6B21 (= 27425), the
soft bits, zero padding to 690, truncation to 690. -/
def extract_voice_slot (slot : List Nat) : List Int :=
  let out := 27425 :: extractSoftBits slot
  (out ++ List.replicate (690 - out.length) 0).take 690

/-- Little-endian two's-complement byte pair of an i16 value. -/
def i16leBytes (v : Int) : List Nat :=
  [(v % 65536).toNat % 256, (v % 65536).toNat / 256]

/-- Python `struct.pack('<{n}h', *shorts)`. -/
def packLE16 (l : List Int) : List Nat :=
  l.flatMap i16leBytes

/-! ## Codec frame builder (`auto_test_find_record_decode.py`)

`_extract_voice_slot_from_symbols` there scales soft bits to ±127 with the
mapping 1 → −127, 0 → +127, and `_build_codec_frame_from_soft_bits` lays them
out around the 0x6B21/0x6B22/0x6B26 sub-headers. -/

/-- The two soft bits of one symbol in the auto-test extractor:
`-127 if bit else 127`. -/
def softPair127 (sym : Nat) : List Int :=
  [if (sym >>> 1) &&& 1 = 1 then -127 else 127,
   if sym &&& 1 = 1 then -127 else 127]

/-- Soft bits fed to `_build_codec_frame_from_soft_bits` (same block
structure as `extractSoftBits`). -/
def autoSoftBits (slot : List Nat) : List Int :=
  (slot.take 108).flatMap softPair127 ++
    ((slot.take 227).drop 119).flatMap softPair127

/-- One fill loop `for i in range(lo, lo+count): if idx < len(sb):
block[i] = sb[idx]; idx += 1`, returning the block and the final index. -/
def fillBlock : List Int → List Int → Nat → Nat → Nat → List Int × Nat
  | block, _, _, 0, idx => (block, idx)
  | block, sb, lo, count + 1, idx =>
      if idx < sb.length then
        fillBlock (block.set lo (sb.getD idx 0)) sb (lo + 1) count (idx + 1)
      else fillBlock block sb (lo + 1) count idx

/-- Stage 1 of `_build_codec_frame_from_soft_bits`: the zeroed 690-short
block with 0x6B21 at 0, after the fill loop over positions 1..114. -/
def buildStage1 (sb : List Int) : List Int × Nat :=
  fillBlock ((List.replicate 690 (0 : Int)).set 0 27425) sb 1 114 0

/-- Stage 2: write 0x6B22 (= 27426) at 115, then fill positions 116..229. -/
def buildStage2 (sb : List Int) : List Int × Nat :=
  fillBlock ((buildStage1 sb).1.set 115 27426) sb 116 114 (buildStage1 sb).2

/-- Stage 3: write 0x6B26 (= 27430) at 230, then fill positions 231..344. -/
def buildStage3 (sb : List Int) : List Int × Nat :=
  fillBlock ((buildStage2 sb).1.set 230 27430) sb 231 114 (buildStage2 sb).2

/-- Stage 4: fill positions 345..434. -/
def buildStage4 (sb : List Int) : List Int × Nat :=
  fillBlock (buildStage3 sb).1 sb 345 90 (buildStage3 sb).2

/-- Model of `_build_codec_frame_from_soft_bits`: fewer than 432 soft bits is
rejected; otherwise a 690-short block with 0x6B21 at 0, soft bits at 1..114,
0x6B22 at 115, soft bits at 116..229, 0x6B26 at 230, soft bits at 231..344
and 345..434, and the trailing 0x6B21 at 435. -/
def build_codec_frame_from_soft_bits (sb : List Int) : Option (List Int) :=
  if sb.length < 432 then none
  else some ((buildStage4 sb).1.set 435 27425)

/-! ## SDS payload decoder (`TetraProtocolParser.parse_sds_data`)

Python strings are modelled as lists of Unicode code points.  The text
renderings (prefix tags such as SDS-1/TXT/LIP, float formatting of
coordinates, hex dumps) are carried as tagged constructors holding the
decoded data; the claims depend only on which branch returns. -/

/-- Python `bytes.decode('ascii', errors='strict')`: succeeds iff all bytes are
below 128, and then maps each byte to itself. -/
def decodeAscii (bs : List Nat) : Option (List Nat) :=
  if bs.all (· < 128) then some bs else none

/-- A UTF-8 continuation byte. -/
def utf8Cont (b : Nat) : Bool :=
  decide (128 ≤ b ∧ b < 192)

/-- Python `bytes.decode('utf-8', errors='strict')`: standard strict UTF-8 decoding
rejecting stray continuation bytes, overlong forms, surrogates and values
above 0x10FFFF. -/
def decodeUtf8 : List Nat → Option (List Nat)
  | [] => some []
  | b :: rest =>
      if b < 128 then
        match decodeUtf8 rest with
        | some t => some (b :: t)
        | none => none
      else if b < 194 then none
      else
        match rest with
        | [] => none
        | b1 :: r2 =>
            if b < 224 then
              if utf8Cont b1 then
                match decodeUtf8 r2 with
                | some t => some (((b - 192) * 64 + (b1 - 128)) :: t)
                | none => none
              else none
            else
              match r2 with
              | [] => none
              | b2 :: r3 =>
                  if b < 240 then
                    if utf8Cont b1 ∧ utf8Cont b2 ∧ (b = 224 → 160 ≤ b1) ∧
                        (b = 237 → b1 < 160) then
                      match decodeUtf8 r3 with
                      | some t =>
                          some (((b - 224) * 4096 + (b1 - 128) * 64 +
                            (b2 - 128)) :: t)
                      | none => none
                    else none
                  else
                    match r3 with
                    | [] => none
                    | b3 :: r4 =>
                        if b < 245 then
                          if utf8Cont b1 ∧ utf8Cont b2 ∧ utf8Cont b3 ∧
                              (b = 240 → 144 ≤ b1) ∧ (b = 244 → b1 < 144) then
                            match decodeUtf8 r4 with
                            | some t =>
                                some (((b - 240) * 262144 + (b1 - 128) * 4096 +
                                  (b2 - 128) * 64 + (b3 - 128)) :: t)
                            | none => none
                          else none
                        else none

/-- One byte of `bytes.decode('cp1252', errors='strict')`: the 0x80..0x9F
row maps through the Windows-1252 table, with five undefined positions that
make strict decoding fail. -/
def cp1252Map (b : Nat) : Option Nat :=
  if b < 128 then some b
  else if 160 ≤ b then some b
  else
    match b with
    | 128 => some 8364
    | 130 => some 8218
    | 131 => some 402
    | 132 => some 8222
    | 133 => some 8230
    | 134 => some 8224
    | 135 => some 8225
    | 136 => some 710
    | 137 => some 8240
    | 138 => some 352
    | 139 => some 8249
    | 140 => some 338
    | 142 => some 381
    | 145 => some 8216
    | 146 => some 8217
    | 147 => some 8220
    | 148 => some 8221
    | 149 => some 8226
    | 150 => some 8211
    | 151 => some 8212
    | 152 => some 732
    | 153 => some 8482
    | 154 => some 353
    | 155 => some 8250
    | 156 => some 339
    | 158 => some 382
    | 159 => some 376
    | _ => none

/-- Python `bytes.decode('cp1252', errors='strict')`. -/
def decodeCp1252 (bs : List Nat) : Option (List Nat) :=
  bs.mapM cp1252Map

/-- Python `str.isalnum` restricted to the code points the decoders here can
produce: exact on ASCII and Latin-1 (digits, letters, the Latin-1 numeric
and letter characters), letters for Latin Extended-A/B, and the two modifier
letters reachable through the cp1252 table.  Code points above 0x2C7 that
other scripts could contribute are approximated as non-alphanumeric; no
claim in this development depends on them. -/
def pyIsAlnum (c : Nat) : Bool :=
  decide ((48 ≤ c ∧ c ≤ 57) ∨ (65 ≤ c ∧ c ≤ 90) ∨ (97 ≤ c ∧ c ≤ 122) ∨
    c = 170 ∨ c = 178 ∨ c = 179 ∨ c = 181 ∨ c = 185 ∨ c = 186 ∨
    c = 188 ∨ c = 189 ∨ c = 190 ∨
    (192 ≤ c ∧ c ≤ 214) ∨ (216 ≤ c ∧ c ≤ 246) ∨ (248 ≤ c ∧ c ≤ 591) ∨
    c = 710 ∨ c = 711)

/-- Model of `TetraProtocolParser._is_valid_text` with threshold `thNum/thDen`:
reject strings shorter than 2 or consisting only of whitespace; reject a
string longer than 4 repeating its first character; accept iff the printable
ratio reaches the threshold and more than half the characters are
alphanumeric or space. -/
def isValidText (text : List Nat) (thNum thDen : Nat) : Bool :=
  if text.length < 2 then false
  else
    let clean := text.filter (fun c => !decide (c = 10 ∨ c = 13 ∨ c = 9 ∨ c = 32))
    if clean.length = 0 then false
    else
      let printable :=
        text.countP (fun c => decide ((32 ≤ c ∧ c ≤ 126) ∨ c = 10 ∨ c = 13 ∨ c = 9))
      if 4 < text.length ∧
          text.countP (fun c => c == text.getD 0 0) = text.length then false
      else
        let alnum := text.countP (fun c => pyIsAlnum c || c == 32)
        decide (printable * thDen ≥ thNum * text.length ∧
          alnum * 2 > text.length)

/-- GSM 03.38 character mapping (`TetraProtocolParser._gsm_map`). -/
def gsmMap (code : Nat) : Nat :=
  if 32 ≤ code ∧ code ≤ 126 then code
  else if code = 0 then 64
  else if code = 2 then 36
  else if code = 10 then 10
  else if code = 13 then 13
  else 46

/-- The effective septet-unpacking loop of
`TetraProtocolParser._unpack_gsm7bit` (the first two loops of the Python
function reassign their accumulators and are reset before this one). -/
def unpackGsm7 : List Nat → Nat → Nat → List Nat
  | [], _, _ => []
  | byte :: rest, shift, carry =>
      let ch := ((byte <<< shift) ||| carry) &&& 127
      let c2 := byte >>> (7 - shift)
      if shift + 1 = 7 then gsmMap ch :: gsmMap c2 :: unpackGsm7 rest 0 0
      else gsmMap ch :: unpackGsm7 rest (shift + 1) c2

/-- Model of `TetraProtocolParser._unpack_gsm7bit`. -/
def unpack_gsm7bit (data : List Nat) : List Nat :=
  unpackGsm7 data 0 0

/-- Unsigned value of the bit slice [lo..hi). -/
def sliceU (bits : List Bool) (lo hi : Nat) : Nat :=
  b2n ((bits.drop lo).take (hi - lo))

/-- Two's-complement signed value of the bit slice [lo..hi)
(`BitArray` slice `.int`). -/
def sliceS (bits : List Bool) (lo hi : Nat) : Int :=
  let w := hi - lo
  let v := sliceU bits lo hi
  if v < 2 ^ (w - 1) then (v : Int) else (v : Int) - 2 ^ w

/-- Does `hay` start with `needle`? -/
def leadEq : List Nat → List Nat → Bool
  | [], _ => true
  | _ :: _, [] => false
  | a :: as, b :: bs => a == b && leadEq as bs

/-- Does `hay` contain `needle` as a contiguous substring (Python `in`)? -/
def hasSub (needle : List Nat) : List Nat → Bool
  | [] => leadEq needle []
  | b :: bs => leadEq needle (b :: bs) || hasSub needle bs

/-- The code points of the ASCII text GPGGA sentence marker. -/
def gpggaMark : List Nat := [36, 71, 80, 71, 71, 65]

/-- The code points of the ASCII text GPRMC sentence marker. -/
def gprmcMark : List Nat := [36, 71, 80, 82, 77, 67]

/-- Result of `TetraProtocolParser.parse_lip`: the raw signed coordinate
fields are carried instead of the float-formatted string. -/
inductive LipReport where
  | shortReport (timeElapsed : Nat) (latRaw lonRaw : Int)
  | longReport (latRaw lonRaw : Int)
  | nmea (text : List Nat)
deriving DecidableEq, Repr

/-- Model of `TetraProtocolParser.parse_lip`: dispatch on the 2-bit report kind; short
reports need 65 bits and long reports 75; other kinds fall through to the
NMEA heuristic (ASCII text containing a GPGGA/GPRMC marker). -/
def parse_lip (data : List Nat) : Option LipReport :=
  if data.length < 2 then none
  else
    let bits := bitsOfBytes data
    let t := sliceU bits 0 2
    if t = 0 then
      if bits.length < 65 then none
      else some (.shortReport (sliceU bits 2 4) (sliceS bits 4 28)
        (sliceS bits 28 53))
    else if t = 1 then
      if bits.length < 75 then none
      else some (.longReport (sliceS bits 4 29) (sliceS bits 29 55))
    else
      match decodeAscii data with
      | some text =>
          if hasSub gpggaMark text || hasSub gprmcMark text then
            some (.nmea text)
          else none
      | none => none

/-- The value returned by `parse_sds_data` when it returns one: the tag names
the format string of the corresponding `return` statement. -/
inductive SdsMsg where
  | sds1 (text : List Nat)
  | sdsGsm (text : List Nat)
  | txt (text : List Nat)
  | lipMsg (r : LipReport)
  | locRaw (payload : List Nat)
  | gpsRaw (payload : List Nat)
  | binEnc (byteCount : Nat)
  | binHex (stripped : List Nat)
deriving DecidableEq, Repr

/-- The SDS-1 branch (`05 00` header): ASCII-decode the zero-stripped tail
from offset 3 and accept it if it is valid text. -/
def trySds1 (data : List Nat) : Option SdsMsg :=
  if 3 < data.length ∧ data.getD 0 0 = 5 ∧ data.getD 1 0 = 0 then
    let payload := rstripZeros (data.drop 3)
    match decodeAscii payload with
    | some t => if isValidText t 8 10 then some (.sds1 t) else none
    | none => none
  else none

/-- The GSM 7-bit branch (`07 00` header): unpack from offset 3, then from
offset 2 as a fallback. -/
def tryGsm (data : List Nat) : Option SdsMsg :=
  if 3 < data.length ∧ data.getD 0 0 = 7 ∧ data.getD 1 0 = 0 then
    let t1 := unpack_gsm7bit (data.drop 3)
    if isValidText t1 8 10 then some (.sdsGsm t1)
    else
      let t2 := unpack_gsm7bit (data.drop 2)
      if isValidText t2 8 10 then some (.sdsGsm t2) else none
  else none

/-- The protocol-identifier dispatch: 0x82 Latin-1 text, 0x03 ASCII text,
0x83 and 0x0C location (LIP if it parses, else the raw hex fallback, which
always returns). -/
def tryPid (data : List Nat) : Option SdsMsg :=
  let pid := data.getD 0 0
  let payload := rstripZeros (data.drop 1)
  if pid = 130 then
    if isValidText payload 8 10 then some (.txt payload) else none
  else if pid = 3 then
    match decodeAscii payload with
    | some t => if isValidText t 8 10 then some (.txt t) else none
    | none => none
  else if pid = 131 then
    some (match parse_lip payload with
          | some r => .lipMsg r
          | none => .locRaw payload)
  else if pid = 12 then
    some (match parse_lip payload with
          | some r => .lipMsg r
          | none => .gpsRaw payload)
  else none

/-- Accept a decoded candidate at the 0.6 validity threshold. -/
def validTxt (t : List Nat) : Option SdsMsg :=
  if isValidText t 6 10 then some (.txt t) else none

/-- The strict-decoding cascade utf-8, latin-1, ascii, cp1252 of the
printable-text heuristic.  The errors-replace retry after the Python loop is
unreachable: the latin-1 decode always succeeds, leaving a non-empty `text`.
Latin-1 decoding is the identity on code points. -/
def tryEncodings (td : List Nat) : Option SdsMsg :=
  (match decodeUtf8 td with
   | some t => validTxt t
   | none => none) <|>
  validTxt td <|>
  (match decodeAscii td with
   | some t => validTxt t
   | none => none) <|>
  (match decodeCp1252 td with
   | some t => validTxt t
   | none => none)

/-- The printable-ratio heuristic: more than 60% printable bytes enables the
encoding cascade. -/
def tryPrintable (td : List Nat) : Option SdsMsg :=
  let pc := td.countP (fun b => decide ((32 ≤ b ∧ b ≤ 126) ∨ b = 10 ∨ b = 13))
  if 0 < td.length ∧ pc * 10 > 6 * td.length then tryEncodings td else none

/-- The high-entropy binary branch: more than 8 bytes with over 70% unique
values. -/
def tryEntropy (td : List Nat) : Option SdsMsg :=
  if 8 < td.length ∧ uniqueCount td * 10 > 7 * td.length then
    some (.binEnc td.length)
  else none

/-- The branch cascade of `parse_sds_data` after its two None-guards; every
branch either produces a value or falls through, and the final hex dump
always returns, so this stage is total. -/
def sdsBody (data ds : List Nat) : SdsMsg :=
  (trySds1 data <|> tryGsm data <|> tryPid data <|> tryPrintable ds <|>
    tryEntropy ds).getD (.binHex ds)

/-- Model of `TetraProtocolParser.parse_sds_data`: `None` for empty input and for
input whose zero-stripped form is empty; otherwise the branch cascade. -/
def parse_sds_data (data : List Nat) : Option SdsMsg :=
  if data.length < 1 then none
  else
    let ds := rstripZeros data
    if ds.length = 0 then none else some (sdsBody data ds)

/-! ## Helper lemmas about the MAC PDU parser -/

/-- First three header bits of a MAC-RESOURCE input. -/
def isResourceBits (bits : List Bool) : Prop :=
  8 ≤ bits.length ∧ bitAt bits 0 = false ∧ bitAt bits 1 = false ∧
    bitAt bits 2 = false

/-- First three header bits of a MAC-FRAG input. -/
def isFragBits (bits : List Bool) : Prop :=
  8 ≤ bits.length ∧ bitAt bits 0 = false ∧ bitAt bits 1 = false ∧
    bitAt bits 2 = true

/-- First three header bits of a MAC-END input. -/
def isEndBits (bits : List Bool) : Prop :=
  8 ≤ bits.length ∧ bitAt bits 0 = false ∧ bitAt bits 1 = true ∧
    bitAt bits 2 = false

theorem parse_resource_eq (bits : List Bool) (s : ParserState)
    (h : isResourceBits bits) : parse_mac_pdu bits s = parseResource bits s := by
  obtain ⟨h1, h2, h3, h4⟩ := h
  unfold parse_mac_pdu
  rw [if_neg (by omega)]
  have hv : pduTypeVal bits = 0 := by unfold pduTypeVal; rw [h2, h3, h4]; simp
  rw [hv]
  rfl

theorem parse_frag_eq (bits : List Bool) (s : ParserState)
    (h : isFragBits bits) : parse_mac_pdu bits s = parseFrag bits s := by
  obtain ⟨h1, h2, h3, h4⟩ := h
  unfold parse_mac_pdu
  rw [if_neg (by omega)]
  have hv : pduTypeVal bits = 1 := by unfold pduTypeVal; rw [h2, h3, h4]; simp
  rw [hv]
  rfl

theorem parse_end_eq (bits : List Bool) (s : ParserState)
    (h : isEndBits bits) : parse_mac_pdu bits s = parseEnd bits s := by
  obtain ⟨h1, h2, h3, h4⟩ := h
  unfold parse_mac_pdu
  rw [if_neg (by omega)]
  have hv : pduTypeVal bits = 2 := by unfold pduTypeVal; rw [h2, h3, h4]; simp
  rw [hv]
  rfl

theorem parse_cases (bits : List Bool) (s : ParserState)
    (h : ¬ bits.length < 8) :
    parse_mac_pdu bits s = parseResource bits s ∨
    parse_mac_pdu bits s = parseFrag bits s ∨
    parse_mac_pdu bits s = parseEnd bits s ∨
    ∃ t, t ≠ PDUType.MAC_RESOURCE ∧ t ≠ PDUType.MAC_FRAG ∧
      t ≠ PDUType.MAC_END ∧ parse_mac_pdu bits s = parseGeneric bits s t := by
  unfold parse_mac_pdu
  rw [if_neg h]
  cases pduTypeOfVal (pduTypeVal bits) with
  | MAC_RESOURCE => exact Or.inl rfl
  | MAC_FRAG => exact Or.inr (Or.inl rfl)
  | MAC_END => exact Or.inr (Or.inr (Or.inl rfl))
  | MAC_BROADCAST =>
      exact Or.inr (Or.inr (Or.inr ⟨_, by simp, by simp, by simp, rfl⟩))
  | MAC_SUPPL =>
      exact Or.inr (Or.inr (Or.inr ⟨_, by simp, by simp, by simp, rfl⟩))
  | MAC_U_SIGNAL =>
      exact Or.inr (Or.inr (Or.inr ⟨_, by simp, by simp, by simp, rfl⟩))
  | MAC_DATA =>
      exact Or.inr (Or.inr (Or.inr ⟨_, by simp, by simp, by simp, rfl⟩))
  | MAC_U_BLK =>
      exact Or.inr (Or.inr (Or.inr ⟨_, by simp, by simp, by simp, rfl⟩))

theorem parse_isSome (bits : List Bool) (s : ParserState)
    (h : 8 ≤ bits.length) : ((parse_mac_pdu bits s).1).isSome := by
  rcases parse_cases bits s (by omega) with hc | hc | hc | ⟨t, _, _, _, hc⟩ <;>
    rw [hc]
  · simp [parseResource]
  · unfold parseFrag
    rcases hmd : s.fragment_metadata with _ | ⟨a, e⟩ <;> simp [hmd]
  · simp only [parseEnd]
    split_ifs <;>
      (rcases hmd : s.fragment_metadata with _ | ⟨a, e⟩ <;> simp [hmd])
  · simp [parseGeneric]

theorem bytesOfBits_ne_nil (l : List Bool) (h : l ≠ []) :
    bytesOfBits l ≠ [] := by
  rw [bytesOfBits.eq_def]
  split
  · exact absurd rfl h
  · simp
  · simp

/-! ## Claim C9 -/

/-- Claim C9: `parse_mac_pdu` returns `None` exactly when its input is
shorter than 8 bits, and in that case the fragment buffer and fragment
metadata are left unchanged (the parser state is returned untouched). -/
theorem claim_C9 (bits : List Bool) (s : ParserState) :
    ((parse_mac_pdu bits s).1 = none ↔ bits.length < 8) ∧
    (bits.length < 8 → (parse_mac_pdu bits s).2 = s) := by
  refine ⟨⟨fun h => ?_, fun h => ?_⟩, fun h => ?_⟩
  · by_contra hlen
    have hs := parse_isSome bits s (by omega)
    rw [h] at hs
    simp at hs
  · unfold parse_mac_pdu
    rw [if_pos h]
  · unfold parse_mac_pdu
    rw [if_pos h]

/-- Witness for claim C9 at the concrete 1-bit input. -/
theorem claim_C9_witness :
    ((parse_mac_pdu [true] initState).1 = none ↔ ([true] : List Bool).length < 8) ∧
    (([true] : List Bool).length < 8 →
      (parse_mac_pdu [true] initState).2 = initState) :=
  claim_C9 [true] initState

/-! ## Claim C7 -/

/-- Claim C7: whenever parsing an End PDU completes a fragment sequence
(a `reassembled_data` payload is attached), the fragment buffer is reset to
empty and the recorded metadata is cleared — for every parser state, hence in
particular for every state reachable by a sequence of parse calls. -/
theorem claim_C7 (bits : List Bool) (s : ParserState) (pdu : MacPDU)
    (hp : (parse_mac_pdu bits s).1 = some pdu)
    (ht : pdu.pdu_type = PDUType.MAC_END)
    (hr : pdu.reassembled_data ≠ none) :
    (parse_mac_pdu bits s).2 = initState := by
  by_cases hlen : bits.length < 8
  · unfold parse_mac_pdu at hp
    rw [if_pos hlen] at hp
    simp at hp
  · rcases parse_cases bits s hlen with hc | hc | hc | ⟨t, _, _, hnt, hc⟩
    · rw [hc] at hp
      simp only [parseResource, Option.some.injEq] at hp
      rw [← hp] at ht
      simp at ht
    · rw [hc] at hp
      rcases hmd : s.fragment_metadata with _ | ⟨a, e⟩ <;>
        · simp only [parseFrag, hmd, Option.some.injEq] at hp
          rw [← hp] at ht
          simp at ht
    · rw [hc] at hp ⊢
      simp only [parseEnd] at hp ⊢
      by_cases hb : (s.fragment_buffer ++ endData bits).isEmpty = true
      · rw [if_pos hb] at hp
        simp only [Option.some.injEq] at hp
        rw [← hp] at hr
        simp at hr
      · rw [if_neg hb] at hp ⊢
        rcases hmd : s.fragment_metadata with _ | ⟨a, e⟩ <;> simp [hmd, initState]
    · rw [hc] at hp
      simp only [parseGeneric, Option.some.injEq] at hp
      rw [← hp] at ht
      simp at ht
      exact (hnt ht).elim

/-- Witness for claim C7: an 8-bit End PDU arriving on a state holding one
buffered byte and recorded metadata clears both. -/
theorem claim_C7_witness :
    (parse_mac_pdu (bitsOfBytes [64]) ⟨[65], some (some 1193046, true)⟩).2 =
      initState :=
  claim_C7 (bitsOfBytes [64]) ⟨[65], some (some 1193046, true)⟩
    ⟨.MAC_END, true, some 1193046, 0, [], false, some [65]⟩
    (by decide) (by decide) (by decide)

/-! ## Claim C10 -/

/-- Claim C10: a Frag PDU of at least 8 bits parsed while no Resource has
been seen (empty buffer, empty metadata) still succeeds — its payload is
appended to the empty fragment buffer, the returned PDU has
`encrypted = false` and `address = None`, and a subsequent End PDU emits the
accumulated bytes as a reassembled payload even though no Resource started
the sequence. -/
theorem claim_C10 (f e : List Bool) (hf : isFragBits f) (he : isEndBits e) :
    ((parse_mac_pdu f initState).1.map MacPDU.encrypted = some false) ∧
    ((parse_mac_pdu f initState).1.map MacPDU.address = some none) ∧
    (parse_mac_pdu f initState).2.fragment_buffer = fragData f ∧
    fragData f ≠ [] ∧
    ((parse_mac_pdu e (parse_mac_pdu f initState).2).1.map
        MacPDU.reassembled_data =
      some (some (fragData f ++ endData e))) := by
  have hl := hf.1
  have hfd : fragData f ≠ [] := by
    apply bytesOfBits_ne_nil
    intro hnil
    have hlen4 : (f.drop 4).length = f.length - 4 := by simp
    rw [hnil] at hlen4
    simp at hlen4
    omega
  rw [parse_frag_eq f initState hf, parse_end_eq e _ he]
  have hbuf : fragData f ++ endData e ≠ [] := by
    intro hEq
    rcases List.append_eq_nil.mp hEq with ⟨h1, _⟩
    exact hfd h1
  have hfrag : parseFrag f initState =
      (some { pdu_type := .MAC_FRAG, encrypted := false, address := none,
              length := 0, data := fragData f, fill_bits := bitAt f 3,
              reassembled_data := none },
       { fragment_buffer := fragData f, fragment_metadata := none }) := by
    simp [parseFrag, initState]
  rw [hfrag]
  have hb : ¬ ((fragData f ++ endData e).isEmpty = true) := by
    intro hTrue
    exact hbuf (List.isEmpty_iff.mp hTrue)
  refine ⟨rfl, rfl, rfl, hfd, ?_⟩
  simp only [parseEnd]
  rw [if_neg hb]
  simp

/-- Witness for claim C10: a concrete 8-bit Frag followed by an 8-bit End on
the fresh parser state. -/
theorem claim_C10_witness :
    ((parse_mac_pdu (bitsOfBytes [32]) initState).1.map MacPDU.encrypted =
      some false) ∧
    ((parse_mac_pdu (bitsOfBytes [32]) initState).1.map MacPDU.address =
      some none) ∧
    (parse_mac_pdu (bitsOfBytes [32]) initState).2.fragment_buffer =
      fragData (bitsOfBytes [32]) ∧
    fragData (bitsOfBytes [32]) ≠ [] ∧
    ((parse_mac_pdu (bitsOfBytes [64])
        (parse_mac_pdu (bitsOfBytes [32]) initState).2).1.map
        MacPDU.reassembled_data =
      some (some (fragData (bitsOfBytes [32]) ++ endData (bitsOfBytes [64])))) :=
  claim_C10 (bitsOfBytes [32]) (bitsOfBytes [64])
    ⟨by decide, by decide, by decide, by decide⟩
    ⟨by decide, by decide, by decide, by decide⟩

/-! ## Claim C3 -/

/-- Run a sequence of parse calls for their state effect. -/
def parseSteps (inputs : List (List Bool)) (s : ParserState) : ParserState :=
  inputs.foldl (fun st b => (parse_mac_pdu b st).2) s

theorem parse_resource_state (r : List Bool) (s : ParserState)
    (h : isResourceBits r) :
    (parse_mac_pdu r s).2 = ⟨resData r, some (resAddress r, bitAt r 4)⟩ := by
  rw [parse_resource_eq r s h]
  rfl

theorem parse_frag_state (f : List Bool) (s : ParserState) (h : isFragBits f) :
    (parse_mac_pdu f s).2 =
      ⟨s.fragment_buffer ++ fragData f, s.fragment_metadata⟩ := by
  rw [parse_frag_eq f s h]
  rfl

theorem parseSteps_frags :
    ∀ (fs : List (List Bool)) (s : ParserState), (∀ f ∈ fs, isFragBits f) →
      parseSteps fs s =
        ⟨s.fragment_buffer ++ (fs.map fragData).flatten,
          s.fragment_metadata⟩ := by
  intro fs
  induction fs with
  | nil =>
      intro s _
      simp [parseSteps]
  | cons f fs ih =>
      intro s hf
      simp only [parseSteps, List.foldl_cons]
      rw [parse_frag_state f s (hf f (by simp))]
      have := ih ⟨s.fragment_buffer ++ fragData f, s.fragment_metadata⟩
        (fun g hg => hf g (by simp [hg]))
      simp only [parseSteps] at this
      rw [this]
      simp

theorem parse_end_complete (e : List Bool) (s : ParserState)
    (he : isEndBits e) (hne : s.fragment_buffer ++ endData e ≠ []) :
    ((parse_mac_pdu e s).1.map MacPDU.reassembled_data =
       some (some (s.fragment_buffer ++ endData e))) ∧
    (parse_mac_pdu e s).2 = initState := by
  rw [parse_end_eq e s he]
  have hb : ¬ ((s.fragment_buffer ++ endData e).isEmpty = true) := fun hT =>
    hne (List.isEmpty_iff.mp hT)
  simp only [parseEnd]
  rw [if_neg hb]
  rcases hmd : s.fragment_metadata with _ | ⟨a, e2⟩ <;> simp [hmd, initState]

/-- Claim C3 (amended): for every Resource, Frag*, End sequence whose
component payloads are not all empty, the End PDU's reassembled payload is
the concatenation of the Resource, Frag and End payloads — so its length is
the sum of the component payload lengths — and the fragment buffer is empty
afterwards.  (When every component payload is empty the code attaches no
reassembled payload at all; see the counterexample.) -/
theorem claim_C3 (s0 : ParserState) (r : List Bool) (fs : List (List Bool))
    (e : List Bool) (hr : isResourceBits r) (hf : ∀ f ∈ fs, isFragBits f)
    (he : isEndBits e)
    (hne : resData r ++ (fs.map fragData).flatten ++ endData e ≠ []) :
    ((parse_mac_pdu e (parseSteps fs (parse_mac_pdu r s0).2)).1.map
        MacPDU.reassembled_data =
      some (some (resData r ++ (fs.map fragData).flatten ++ endData e))) ∧
    (resData r ++ (fs.map fragData).flatten ++ endData e).length =
      (resData r).length + ((fs.map fragData).flatten).length +
        (endData e).length ∧
    (parse_mac_pdu e (parseSteps fs (parse_mac_pdu r s0).2)).2.fragment_buffer =
      [] := by
  rw [parse_resource_state r s0 hr]
  rw [parseSteps_frags fs _ hf]
  obtain ⟨h1, h2⟩ := parse_end_complete e
    ⟨resData r ++ (fs.map fragData).flatten,
      some (resAddress r, bitAt r 4)⟩ he hne
  refine ⟨h1, by simp only [List.length_append], ?_⟩
  rw [h2]
  rfl

/-- A concrete Resource input for the claim C3 witness: type 000, zero fill,
clear, all-zero address, length 1, one payload byte 0x41. -/
def resourceBitsW : List Bool :=
  List.replicate 29 false ++ [false, false, false, false, false, true] ++
    bitsOfByte 65

/-- Witness for claim C3: Resource carrying one byte, one Frag, and an End
with empty payload. -/
theorem claim_C3_witness :
    ((parse_mac_pdu (bitsOfBytes [64])
        (parseSteps [bitsOfBytes [32]]
          (parse_mac_pdu resourceBitsW initState).2)).1.map
        MacPDU.reassembled_data =
      some (some (resData resourceBitsW ++
        ([bitsOfBytes [32]].map fragData).flatten ++
        endData (bitsOfBytes [64])))) ∧
    (resData resourceBitsW ++ ([bitsOfBytes [32]].map fragData).flatten ++
        endData (bitsOfBytes [64])).length =
      (resData resourceBitsW).length +
        (([bitsOfBytes [32]].map fragData).flatten).length +
        (endData (bitsOfBytes [64])).length ∧
    (parse_mac_pdu (bitsOfBytes [64])
        (parseSteps [bitsOfBytes [32]]
          (parse_mac_pdu resourceBitsW initState).2)).2.fragment_buffer =
      [] :=
  claim_C3 initState resourceBitsW [bitsOfBytes [32]] (bitsOfBytes [64])
    ⟨by decide, by decide, by decide, by decide⟩
    (by
      intro f hfm
      rw [List.mem_singleton] at hfm
      subst hfm
      exact ⟨by decide, by decide, by decide, by decide⟩)
    ⟨by decide, by decide, by decide, by decide⟩
    (by decide)

/-- Counterexample for claim C3 as stated: a Resource with empty payload
followed directly by an End with empty payload is a Resource → End sequence,
but the End PDU carries no reassembled payload at all (`None`), not the
(empty) concatenation. -/
theorem claim_C3_cex :
    isResourceBits (List.replicate 8 false) ∧
    isEndBits (bitsOfBytes [64]) ∧
    resData (List.replicate 8 false) = [] ∧
    endData (bitsOfBytes [64]) = [] ∧
    ((parse_mac_pdu (bitsOfBytes [64])
        (parse_mac_pdu (List.replicate 8 false) initState).2).1.map
        MacPDU.reassembled_data = some none) ∧
    (some (none : Option (List Nat)) ≠ some (some [])) :=
  ⟨⟨by decide, by decide, by decide, by decide⟩,
   ⟨by decide, by decide, by decide, by decide⟩,
   by decide, by decide, by decide, by decide⟩

/-! ## Claim C2 -/

/-- Claim C2 (amended): the SDS decoder returns `None` exactly for inputs
that are empty or all zero bytes (equivalently, whose zero-stripped form is
empty); for every other input it returns a value, falling back to the binary
branches.  (As stated — a value for *every* input — the claim fails; see the
counterexample.) -/
theorem claim_C2 (data : List Nat) :
    parse_sds_data data = none ↔ rstripZeros data = [] := by
  simp only [parse_sds_data]
  split_ifs with h1 h2
  · have hdata : data = [] := List.length_eq_zero.mp (by omega)
    subst hdata
    simp [rstripZeros]
  · constructor
    · intro _
      exact List.length_eq_zero.mp h2
    · intro _
      rfl
  · constructor
    · intro h
      exact absurd h (by simp)
    · intro h
      exact absurd (by rw [h]; rfl : (rstripZeros data).length = 0) h2

/-- Witness for claim C2 at a concrete non-zero input. -/
theorem claim_C2_witness :
    parse_sds_data [1] = none ↔ rstripZeros [1] = [] :=
  claim_C2 [1]

/-- Counterexample for claim C2 as stated: the all-zero three-byte input is
an input byte sequence for which the decoder returns no value. -/
theorem claim_C2_cex : parse_sds_data [0, 0, 0] = none := by decide

/-! ## Claim C5 -/

/-- Claim C5 (amended): a PDU whose encrypted flag is false and whose payload
has more than 8 bytes with a unique-byte ratio above 0.7 is promoted to
`encrypted = true`, but the encryption algorithm label is left exactly as it
was (it is `None` when the 2-bit header encryption mode was Clear); the
promotion does not label the frame TEA1. -/
theorem claim_C5 (data : List Nat) (alg : Option EncAlg)
    (h1 : 8 < data.length) (h2 : 7 * data.length < 10 * uniqueCount data) :
    updateEncStatus false data alg = (true, alg) := by
  unfold updateEncStatus
  rw [if_neg (by simp), if_pos (by omega), if_pos ⟨by omega, h1⟩]

/-- Witness for claim C5: a 16-byte payload with 15 unique bytes and no
header algorithm. -/
theorem claim_C5_witness :
    updateEncStatus false [0, 1, 2, 3, 4, 5, 6, 7, 8, 9, 10, 11, 12, 13, 14, 0]
      none = (true, none) :=
  claim_C5 [0, 1, 2, 3, 4, 5, 6, 7, 8, 9, 10, 11, 12, 13, 14, 0] none
    (by decide) (by decide)

/-- Counterexample for claim C5 as stated: the Resource scenario — clear
flag, 16-byte payload with 15 unique bytes, header mode Clear — is promoted
to encrypted, but its algorithm label is `None`, not TEA1. -/
theorem claim_C5_cex :
    updateEncStatus false [0, 1, 2, 3, 4, 5, 6, 7, 8, 9, 10, 11, 12, 13, 14, 0]
      (algOfMode 0) = (true, none) ∧
    (updateEncStatus false [0, 1, 2, 3, 4, 5, 6, 7, 8, 9, 10, 11, 12, 13, 14, 0]
      (algOfMode 0)).1 = true ∧
    (updateEncStatus false [0, 1, 2, 3, 4, 5, 6, 7, 8, 9, 10, 11, 12, 13, 14, 0]
      (algOfMode 0)).2 ≠ some EncAlg.TEA1 :=
  ⟨by decide, by decide, by decide⟩

/-! ## Claim C6 -/

/-- Claim C6: the concrete candidate plaintext `[5, 72, 69, 76, 76, 79, 33,
33]` re-parses as a typed MAC PDU (MAC-RESOURCE, not plain Data), so per the
spec its trial score should include the `+50` bonus on top of the `+100` CRC
bonus; the code's advanced-scoring block adds only the CRC bonus, because
the typed-PDU comparison dies on a missing attribute and is swallowed by the
bare except.  The trial therefore scores 184 where the spec-modelled score
is 234.  (The early-accept threshold `score > 80` and the final-accept
threshold `best score > 10` do match the code.) -/
theorem claim_C6 :
    ((parse_mac_pdu (bitsOfBytes [5, 72, 69, 76, 76, 79, 33, 33])
        initState).1.map MacPDU.pdu_type = some PDUType.MAC_RESOURCE) ∧
    (PDUType.MAC_RESOURCE ≠ PDUType.MAC_DATA) ∧
    (advancedBonus [5, 72, 69, 76, 76, 79, 33, 33] initState).1 = 100 ∧
    (advancedBonusSpec [5, 72, 69, 76, 76, 79, 33, 33] initState).1 = 150 ∧
    (trialScore [5, 72, 69, 76, 76, 79, 33, 33] initState).1 = 184 ∧
    (trialScoreSpec [5, 72, 69, 76, 76, 79, 33, 33] initState).1 = 234 := by
  decide

/-! ## Claim C1 -/

theorem flatMap_length_two {α β : Type} (f : α → List β)
    (hf : ∀ a, (f a).length = 2) (l : List α) :
    (l.flatMap f).length = 2 * l.length := by
  induction l with
  | nil => simp
  | cons a l ih =>
      simp only [List.flatMap_cons, List.length_append, ih, hf,
        List.length_cons]
      omega

theorem extractSoftBits_length (slot : List Nat) (h : slot.length = 255) :
    (extractSoftBits slot).length = 432 := by
  unfold extractSoftBits
  rw [List.length_append, flatMap_length_two softPair16384 (fun a => rfl),
    flatMap_length_two softPair16384 (fun a => rfl)]
  simp only [List.length_take, List.length_drop, h]
  omega

theorem mem_softPair16384 (x : Int) (a : Nat) (hx : x ∈ softPair16384 a) :
    x = 16384 ∨ x = -16384 := by
  simp only [softPair16384, List.mem_cons, List.mem_singleton] at hx
  rcases hx with h | h | h
  · rw [h]
    split <;> simp
  · rw [h]
    split <;> simp
  · simp at h

theorem mem_softPair127 (x : Int) (a : Nat) (hx : x ∈ softPair127 a) :
    x = 127 ∨ x = -127 := by
  simp only [softPair127, List.mem_cons, List.mem_singleton] at hx
  rcases hx with h | h | h
  · rw [h]
    split <;> simp
  · rw [h]
    split <;> simp
  · simp at h

theorem fillBlock_length :
    ∀ (count : Nat) (b sb : List Int) (lo idx : Nat),
      (fillBlock b sb lo count idx).1.length = b.length := by
  intro count
  induction count with
  | zero => intro b sb lo idx; rfl
  | succ n ih =>
      intro b sb lo idx
      simp only [fillBlock]
      split_ifs
      · rw [ih]
        simp
      · rw [ih]

theorem fillBlock_getD_lt :
    ∀ (count : Nat) (b sb : List Int) (lo idx j : Nat) (d : Int), j < lo →
      ((fillBlock b sb lo count idx).1).getD j d = b.getD j d := by
  intro count
  induction count with
  | zero => intros; rfl
  | succ n ih =>
      intro b sb lo idx j d hj
      simp only [fillBlock]
      split_ifs
      · rw [ih _ _ _ _ _ _ (by omega)]
        simp only [List.getD_eq_getElem?_getD,
          List.getElem?_set_ne (show lo ≠ j by omega)]
      · exact ih _ _ _ _ _ _ (by omega)

theorem getD_set_self (l : List Int) (i : Nat) (v : Int) (h : i < l.length) :
    (l.set i v).getD i 0 = v := by
  rw [List.getD_eq_getElem?_getD, List.getElem?_set_self h]
  rfl

theorem getD_set_ne (l : List Int) (i j : Nat) (v : Int) (h : i ≠ j) :
    (l.set i v).getD j 0 = l.getD j 0 := by
  rw [List.getD_eq_getElem?_getD, List.getD_eq_getElem?_getD,
    List.getElem?_set_ne h]

theorem buildStage1_length (sb : List Int) : (buildStage1 sb).1.length = 690 := by
  unfold buildStage1
  rw [fillBlock_length]
  rw [List.length_set, List.length_replicate]

theorem buildStage2_length (sb : List Int) : (buildStage2 sb).1.length = 690 := by
  unfold buildStage2
  rw [fillBlock_length]
  rw [List.length_set, buildStage1_length]

theorem buildStage3_length (sb : List Int) : (buildStage3 sb).1.length = 690 := by
  unfold buildStage3
  rw [fillBlock_length]
  rw [List.length_set, buildStage2_length]

theorem buildStage4_length (sb : List Int) : (buildStage4 sb).1.length = 690 := by
  unfold buildStage4
  rw [fillBlock_length]
  exact buildStage3_length sb

theorem build_frame_facts (sb : List Int) (hsb : 432 ≤ sb.length) :
    ∃ blk, build_codec_frame_from_soft_bits sb = some blk ∧
      blk.length = 690 ∧ blk.getD 0 0 = 27425 ∧ blk.getD 115 0 = 27426 ∧
      blk.getD 230 0 = 27430 ∧ blk.getD 435 0 = 27425 := by
  unfold build_codec_frame_from_soft_bits
  rw [if_neg (by omega)]
  refine ⟨_, rfl, ?_, ?_, ?_, ?_, ?_⟩
  · rw [List.length_set, buildStage4_length]
  · rw [getD_set_ne _ _ _ _ (by omega)]
    unfold buildStage4
    rw [fillBlock_getD_lt _ _ _ _ _ _ _ (by omega)]
    unfold buildStage3
    rw [fillBlock_getD_lt _ _ _ _ _ _ _ (by omega)]
    rw [getD_set_ne _ _ _ _ (by omega)]
    unfold buildStage2
    rw [fillBlock_getD_lt _ _ _ _ _ _ _ (by omega)]
    rw [getD_set_ne _ _ _ _ (by omega)]
    unfold buildStage1
    rw [fillBlock_getD_lt _ _ _ _ _ _ _ (by omega)]
    rw [getD_set_self _ _ _ (by rw [List.length_replicate]; omega)]
  · rw [getD_set_ne _ _ _ _ (by omega)]
    unfold buildStage4
    rw [fillBlock_getD_lt _ _ _ _ _ _ _ (by omega)]
    unfold buildStage3
    rw [fillBlock_getD_lt _ _ _ _ _ _ _ (by omega)]
    rw [getD_set_ne _ _ _ _ (by omega)]
    unfold buildStage2
    rw [fillBlock_getD_lt _ _ _ _ _ _ _ (by omega)]
    rw [getD_set_self _ _ _ (by rw [buildStage1_length]; omega)]
  · rw [getD_set_ne _ _ _ _ (by omega)]
    unfold buildStage4
    rw [fillBlock_getD_lt _ _ _ _ _ _ _ (by omega)]
    unfold buildStage3
    rw [fillBlock_getD_lt _ _ _ _ _ _ _ (by omega)]
    rw [getD_set_self _ _ _ (by rw [buildStage2_length]; omega)]
  · rw [getD_set_self _ _ _ (by rw [buildStage4_length]; omega)]

/-- Claim C1 (amended): for every 255-symbol voice slot,
`extract_voice_slot_from_symbols` emits exactly 1380 bytes laid out as 690
little-endian i16 shorts — 0x6B21 at short 0, the 432 soft bits (symbols
[0..108) and [119..227), +16384 for a 1 bit and −16384 for a 0 bit)
contiguously at shorts 1..432, and zero fill at shorts 433..689 — with no
0x6B22/0x6B26 sub-headers.  The sub-header layout (0x6B22 at short 115,
0x6B26 at short 230, 0x6B21 at shorts 0 and 435) is produced by the separate
`_build_codec_frame_from_soft_bits`, whose soft bits are encoded −127 for a
1 bit and +127 for a 0 bit. -/
theorem claim_C1 (slot : List Nat) (sb : List Int) (h : slot.length = 255)
    (hsb : 432 ≤ sb.length) :
    extract_voice_slot slot =
      27425 :: (extractSoftBits slot ++ List.replicate 257 0) ∧
    (extract_voice_slot slot).length = 690 ∧
    (packLE16 (extract_voice_slot slot)).length = 1380 ∧
    (extract_voice_slot slot).getD 0 0 = 27425 ∧
    (∀ x ∈ extractSoftBits slot, x = 16384 ∨ x = -16384) ∧
    (∀ j, 433 ≤ j → (extract_voice_slot slot).getD j 0 = 0) ∧
    (∃ blk, build_codec_frame_from_soft_bits sb = some blk ∧
      blk.length = 690 ∧ blk.getD 0 0 = 27425 ∧ blk.getD 115 0 = 27426 ∧
      blk.getD 230 0 = 27430 ∧ blk.getD 435 0 = 27425) ∧
    (∀ x ∈ autoSoftBits slot, x = 127 ∨ x = -127) := by
  have hsl : (extractSoftBits slot).length = 432 := extractSoftBits_length slot h
  have hstruct : extract_voice_slot slot =
      27425 :: (extractSoftBits slot ++ List.replicate 257 0) := by
    simp only [extract_voice_slot]
    rw [List.length_cons, hsl]
    rw [show (690 - (432 + 1)) = 257 from rfl]
    rw [List.take_of_length_le
      (by
        simp only [List.length_append, List.length_cons,
          List.length_replicate, hsl]
        omega)]
    rw [List.cons_append]
  have hflen : (extract_voice_slot slot).length = 690 := by
    rw [hstruct]
    simp only [List.length_cons, List.length_append, List.length_replicate,
      hsl]
  refine ⟨hstruct, hflen, ?_, ?_, ?_, ?_, build_frame_facts sb hsb, ?_⟩
  · unfold packLE16
    rw [flatMap_length_two i16leBytes (fun a => rfl), hflen]
  · rw [hstruct]
    rfl
  · intro x hx
    unfold extractSoftBits at hx
    rcases List.mem_append.mp hx with hx | hx <;>
      · obtain ⟨a, _, hxa⟩ := List.mem_flatMap.mp hx
        exact mem_softPair16384 x a hxa
  · intro j hj
    rw [hstruct]
    obtain ⟨k, rfl⟩ : ∃ k, j = k + 1 := ⟨j - 1, by omega⟩
    rw [List.getD_cons_succ]
    rw [List.getD_eq_getElem?_getD,
      List.getElem?_append_right (by rw [hsl]; omega)]
    rw [List.getElem?_replicate]
    split <;> rfl
  · intro x hx
    unfold autoSoftBits at hx
    rcases List.mem_append.mp hx with hx | hx <;>
      · obtain ⟨a, _, hxa⟩ := List.mem_flatMap.mp hx
        exact mem_softPair127 x a hxa

set_option maxRecDepth 40000 in
/-- Witness for claim C1 at the all-zero 255-symbol slot and the constant
432-entry soft-bit list. -/
theorem claim_C1_witness :
    extract_voice_slot (List.replicate 255 0) =
      27425 :: (extractSoftBits (List.replicate 255 0) ++
        List.replicate 257 0) ∧
    (extract_voice_slot (List.replicate 255 0)).length = 690 ∧
    (packLE16 (extract_voice_slot (List.replicate 255 0))).length = 1380 ∧
    (extract_voice_slot (List.replicate 255 0)).getD 0 0 = 27425 ∧
    (∀ x ∈ extractSoftBits (List.replicate 255 0),
      x = 16384 ∨ x = -16384) ∧
    (∀ j, 433 ≤ j →
      (extract_voice_slot (List.replicate 255 0)).getD j 0 = 0) ∧
    (∃ blk,
      build_codec_frame_from_soft_bits (List.replicate 432 (127 : Int)) =
        some blk ∧
      blk.length = 690 ∧ blk.getD 0 0 = 27425 ∧ blk.getD 115 0 = 27426 ∧
      blk.getD 230 0 = 27430 ∧ blk.getD 435 0 = 27425) ∧
    (∀ x ∈ autoSoftBits (List.replicate 255 0), x = 127 ∨ x = -127) :=
  claim_C1 (List.replicate 255 0) (List.replicate 432 (127 : Int))
    (by decide) (by decide)

set_option maxRecDepth 40000 in
/-- Counterexample for claim C1 as stated: on the all-zero 255-symbol slot
the ±16384 emitter has a soft bit, not the 0x6B22 sub-header, at short 115;
and the builder that does produce the sub-headers receives ±127 soft bits
(+127 for a 0 bit), not ±16384. -/
theorem claim_C1_cex :
    (extract_voice_slot (List.replicate 255 0)).getD 115 0 = -16384 ∧
    ((-16384 : Int) ≠ 27426) ∧
    ((build_codec_frame_from_soft_bits
        (autoSoftBits (List.replicate 255 0))).map (fun b => b.getD 1 0) =
      some 127) ∧
    ((127 : Int) ≠ 16384 ∧ (127 : Int) ≠ -16384) := by
  decide

/-! ## Claim C4 -/

/-- Claim C4 (amended): the sync thresholds 0.75, 0.65, 0.55 are tried in
order, each lower threshold only when the previous yielded no match; but when
all three fail on a stream of at least 510 bits the fallback is the single
candidate sync position 0 — not bursts at regular 510-bit offsets — and that
candidate is then discarded by the burst anchoring step (0 − 216 < 0), so no
burst at all is emitted. -/
theorem claim_C4 (bits : List Bool) :
    (find_sync bits 3 4 ≠ [] → sync_positions bits = find_sync bits 3 4) ∧
    (find_sync bits 3 4 = [] → find_sync bits 13 20 ≠ [] →
      sync_positions bits = find_sync bits 13 20) ∧
    (find_sync bits 3 4 = [] → find_sync bits 13 20 = [] →
      find_sync bits 11 20 ≠ [] → sync_positions bits = find_sync bits 11 20) ∧
    (find_sync bits 3 4 = [] → find_sync bits 13 20 = [] →
      find_sync bits 11 20 = [] → 510 ≤ bits.length →
      sync_positions bits = [0] ∧ decode_emitted bits = []) := by
  refine ⟨?_, ?_, ?_, ?_⟩
  · intro h75
    simp only [sync_positions]
    rw [if_neg (by rw [List.isEmpty_iff]; exact h75)]
  · intro h75 h65
    simp only [sync_positions]
    rw [if_pos (by rw [List.isEmpty_iff]; exact h75),
      if_neg (by rw [List.isEmpty_iff]; exact h65)]
  · intro h75 h65 h55
    simp only [sync_positions]
    rw [if_pos (by rw [List.isEmpty_iff]; exact h75),
      if_pos (by rw [List.isEmpty_iff]; exact h65),
      if_neg (by rw [List.isEmpty_iff]; exact h55)]
  · intro h75 h65 h55 hlen
    have hsp : sync_positions bits = [0] := by
      simp only [sync_positions]
      rw [if_pos (by rw [List.isEmpty_iff]; exact h75),
        if_pos (by rw [List.isEmpty_iff]; exact h65),
        if_pos (by rw [List.isEmpty_iff]; exact h55),
        if_pos hlen]
    refine ⟨hsp, ?_⟩
    unfold decode_emitted
    rw [hsp]
    simp only [List.filterMap_cons]
    rw [if_neg (by omega)]
    rfl

set_option maxRecDepth 100000 in
/-- Witness for claim C4: on the all-zero 510-bit stream all three
thresholds fail, the fallback position list is `[0]`, and no burst is
emitted. -/
theorem claim_C4_witness :
    sync_positions (List.replicate 510 false) = [0] ∧
    decode_emitted (List.replicate 510 false) = [] :=
  (claim_C4 (List.replicate 510 false)).2.2.2 (by decide) (by decide)
    (by decide) (by decide)

set_option maxRecDepth 100000 in
/-- Counterexample for claim C4 as stated: the all-zero 510-bit stream
matches no threshold, yet the framer emits no burst at offset 0 (or any
other offset), where the claim requires bursts at regular 510-bit offsets
starting at 0. -/
theorem claim_C4_cex :
    find_sync (List.replicate 510 false) 3 4 = [] ∧
    find_sync (List.replicate 510 false) 13 20 = [] ∧
    find_sync (List.replicate 510 false) 11 20 = [] ∧
    (List.replicate 510 false).length = 510 ∧
    decode_emitted (List.replicate 510 false) = [] ∧
    (([] : List Nat) ≠ [0]) := by
  decide

/-! ## Claim C8 -/

/-- The top `n` bits of a 16-bit CRC register, MSB first (the general form of
`crcBitsOf`). -/
def topBits (n c : Nat) : List Bool :=
  (List.range n).map (fun i => (c >>> (15 - i)) &&& 1 = 1)

theorem crcBitsOf_eq_topBits (c : Nat) : crcBitsOf c = topBits 16 c := rfl

theorem bit_expr_testBit (c k : Nat) :
    (decide ((c >>> k) &&& 1 = 1)) = c.testBit k := by
  rw [Nat.testBit_to_div_mod, Nat.shiftRight_eq_div_pow, Nat.and_one_is_mod]

theorem topBits_eq_testBit (n c : Nat) :
    topBits n c = (List.range n).map (fun i => c.testBit (15 - i)) := by
  unfold topBits
  exact List.map_congr_left (fun i _ => bit_expr_testBit c (15 - i))

theorem crcStep_lt (c : Nat) (b : Bool) : crcStep c b < 65536 := by
  simp only [crcStep]
  exact Nat.mod_lt _ (by norm_num)

theorem foldl_crcStep_lt (l : List Bool) (c : Nat) (h : c < 65536) :
    l.foldl crcStep c < 65536 := by
  induction l generalizing c with
  | nil => exact h
  | cons b l ih => exact ih _ (crcStep_lt c b)

theorem and_top_eq_zero (x : Nat) (h : x < 32768) : x &&& 32768 = 0 := by
  apply Nat.eq_of_testBit_eq
  intro i
  rw [Nat.testBit_and, Nat.zero_testBit]
  rw [show (32768 : Nat) = 2 ^ 15 from by norm_num]
  rcases eq_or_ne 15 i with hi | hi
  · rw [← hi, Nat.testBit_lt_two_pow (by norm_num at h ⊢; omega)]
    simp
  · rw [Nat.testBit_two_pow_of_ne hi]
    simp

theorem xor_high (r : Nat) (h : r < 32768) : (32768 + r) ^^^ 32768 = r := by
  have h1 : r ^^^ 32768 = 32768 + r := by
    apply Nat.eq_of_testBit_eq
    intro i
    rw [Nat.testBit_xor]
    rw [show (32768 : Nat) = 2 ^ 15 from by norm_num]
    rcases lt_trichotomy i 15 with hi | hi | hi
    · rw [Nat.testBit_two_pow_add_gt hi, Nat.testBit_two_pow_of_ne (by omega)]
      simp
    · subst hi
      rw [Nat.testBit_two_pow_add_eq, Nat.testBit_two_pow_self,
        Nat.testBit_lt_two_pow (by norm_num at h ⊢; omega)]
      simp
    · have hr2 : r < 2 ^ i :=
        lt_of_lt_of_le (by norm_num at h ⊢; omega : r < 2 ^ 15)
          (Nat.pow_le_pow_right (by norm_num) (by omega))
      have hs2 : 2 ^ 15 + r < 2 ^ i := by
        have h16 : (2 : Nat) ^ 16 ≤ 2 ^ i :=
          Nat.pow_le_pow_right (by norm_num) (by omega)
        have : (2 : Nat) ^ 15 + r < 2 ^ 16 := by norm_num at h ⊢; omega
        omega
      rw [Nat.testBit_lt_two_pow hr2, Nat.testBit_lt_two_pow hs2,
        Nat.testBit_two_pow_of_ne (by omega)]
      simp
  calc (32768 + r) ^^^ 32768 = (r ^^^ 32768) ^^^ 32768 := by rw [h1]
    _ = r := Nat.xor_cancel_right _ _

theorem crcStep_msb (c : Nat) (h : c < 65536) :
    crcStep c (decide ((c >>> 15) &&& 1 = 1)) = c % 32768 * 2 := by
  have hdiv : c / 32768 = 0 ∨ c / 32768 = 1 := by omega
  have hb : ((c >>> 15) &&& 1 = 1) ↔ (c / 32768 = 1) := by
    rw [Nat.shiftRight_eq_div_pow, Nat.and_one_is_mod]
    rw [show (2 : Nat) ^ 15 = 32768 from by norm_num]
    omega
  rcases hdiv with hq | hq
  · have hc : c < 32768 := by omega
    have hbf : (decide ((c >>> 15) &&& 1 = 1)) = false := by
      rw [bit_expr_testBit, Nat.testBit_to_div_mod]
      rw [show (2 : Nat) ^ 15 = 32768 from by norm_num]
      simp [hq]
    rw [hbf]
    simp only [crcStep, Bool.false_eq_true, if_false, Nat.xor_zero]
    rw [if_neg (by simp [and_top_eq_zero c hc])]
    rw [Nat.shiftLeft_eq]
    have : c % 32768 = c := Nat.mod_eq_of_lt hc
    omega
  · have hr : c % 32768 < 32768 := Nat.mod_lt _ (by norm_num)
    have hceq : c = 32768 + c % 32768 := by omega
    have hbt : (decide ((c >>> 15) &&& 1 = 1)) = true := by
      rw [bit_expr_testBit, Nat.testBit_to_div_mod]
      rw [show (2 : Nat) ^ 15 = 32768 from by norm_num]
      simp [hq]
    have hxor : c ^^^ 32768 = c % 32768 := by
      conv_lhs => rw [hceq]
      exact xor_high _ hr
    rw [hbt]
    simp only [crcStep, if_true, hxor]
    rw [if_neg (by simp [and_top_eq_zero _ hr])]
    rw [Nat.shiftLeft_eq]
    omega

theorem topBits_succ (n c : Nat) (hn : n ≤ 15) :
    topBits (n + 1) c =
      (decide ((c >>> 15) &&& 1 = 1)) :: topBits n (c % 32768 * 2) := by
  rw [topBits_eq_testBit, topBits_eq_testBit, List.range_succ_eq_map,
    List.map_cons, List.map_map, bit_expr_testBit]
  congr 1
  apply List.map_congr_left
  intro i hi
  rw [List.mem_range] at hi
  simp only [Function.comp]
  have e1 : 15 - Nat.succ i = 14 - i := by omega
  have e2 : 15 - i = (14 - i) + 1 := by omega
  rw [e1, e2, Nat.testBit_add_one]
  rw [Nat.mul_div_cancel _ (by norm_num : (0 : Nat) < 2)]
  rw [show (32768 : Nat) = 2 ^ 15 from by norm_num]
  rw [Nat.testBit_mod_two_pow]
  have : 14 - i < 15 := by omega
  simp [this]

theorem foldl_crcStep_topBits :
    ∀ n, n ≤ 16 → ∀ c, c < 65536 →
      List.foldl crcStep c (topBits n c) = c % 2 ^ (16 - n) * 2 ^ n := by
  intro n
  induction n with
  | zero =>
      intro _ c h
      simp only [topBits, List.range_zero, List.map_nil, List.foldl_nil,
        Nat.sub_zero, pow_zero, mul_one]
      rw [Nat.mod_eq_of_lt (by norm_num at h ⊢; omega)]
  | succ n ih =>
      intro hn c h
      rw [topBits_succ n c (by omega), List.foldl_cons, crcStep_msb c h]
      have h2 : c % 32768 * 2 < 65536 := by omega
      rw [ih (by omega) _ h2]
      have e1 : 16 - n = (15 - n) + 1 := by omega
      have e2 : 16 - (n + 1) = 15 - n := by omega
      rw [e1, e2, pow_succ, pow_succ]
      rw [Nat.mul_mod_mul_right]
      rw [show (32768 : Nat) = 2 ^ 15 from by norm_num]
      rw [Nat.mod_mod_of_dvd _ (pow_dvd_pow 2 (by omega))]
      ring

/-- Claim C8: for every bit sequence, the CRC-16-CCITT register (polynomial
0x1021, initial value 0xFFFF) computed over the sequence followed by its own
16 CRC bits is zero. -/
theorem claim_C8 (p : List Bool) :
    calculate_crc16 (p ++ crcBitsOf (calculate_crc16 p)) = 0 := by
  unfold calculate_crc16
  rw [List.foldl_append, crcBitsOf_eq_topBits]
  have hlt : List.foldl crcStep 0xFFFF p < 65536 :=
    foldl_crcStep_lt p 0xFFFF (by norm_num)
  rw [foldl_crcStep_topBits 16 (by omega) _ hlt]
  simp only [Nat.sub_self, pow_zero, Nat.mod_one, Nat.zero_mul]

end TetraEar
